import Mathlib

/-!
Verification of the gt2 car-model codec (commongear/gt2, src/extract).

This file shallowly embeds the parts of the codec that the frozen claims
C1-C10 are about: the byte-stream decoding and re-encoding of CarObject
(cdo/cno) and CarPix (cdp/cnp) files, the packed-normal validity check,
the 4bpp/8bpp pixel packing, RGBA-to-Color16 conversion, the color
quantizer and palette merger, the encode-side normal-transfer pass, and
the final size check of the packcdo tool.

Conventions of the embedding:
- A byte buffer is a `List Nat`; bytes read from a stream are kept as the
  raw chunks the C++ code memcpy's into its packed structs, and numeric
  fields (counts, 32-bit normal words) are little-endian views of those
  chunks, exactly as the x86 memcpy-based reader sees them.
- Fallible code (the CHECK macros of util/inspect.h abort the process)
  is modelled with `Except`: a CHECK failure is an error value and aborts
  the enclosing decode/encode, which matches the no-recovery behavior.
- Machine integers are `Nat`/`Int` with explicit masking where the C++
  types truncate.
-/

namespace Gt2

/-- Decode errors of the CarObject/Model byte readers. Each constructor
corresponds to one aborting CHECK in src/extract/car.h; `badNormal`
carries the normal index and the integer sum of squares of the raw
components, which determines the offending length that the source CHECK
message prints (`len() = sqrt sumSq`, `lenf() = sqrt sumSq / 500`). -/
inductive DecodeErr where
  | outOfData : DecodeErr
  | badHeader : DecodeErr
  | badPadding : DecodeErr
  | badNormal (i : Nat) (sumSq : Int) : DecodeErr
  | trailingData : DecodeErr
  | tooManyPalettes : DecodeErr
  | paddingNotZero : DecodeErr
  | badDataOffset : DecodeErr
  | numPalettesCheck : DecodeErr
  | dataSizeCheck : DecodeErr
deriving DecidableEq

/-- Reads `n` bytes from the front of the stream; fails when fewer remain.
Models `StringInStream::Read` (util/io.h), whose CHECK_LE aborts when the
requested size exceeds `remain()`. -/
def readBytes (n : Nat) (s : List Nat) : Except DecodeErr (List Nat × List Nat) :=
  if n ≤ s.length then .ok (s.take n, s.drop n) else .error .outOfData

/-- Reads `n` consecutive chunks of `k` bytes each (the element-wise view of
`StringInStream::Read<T>(n)` for a `k`-byte trivially-copyable `T`). -/
def readChunks (k : Nat) : Nat → List Nat → Except DecodeErr (List (List Nat) × List Nat)
  | 0, s => .ok ([], s)
  | n + 1, s =>
    match readBytes k s with
    | .error e => .error e
    | .ok (c, s1) =>
      match readChunks k n s1 with
      | .error e => .error e
      | .ok (cs, s2) => .ok (c :: cs, s2)

/-- Little-endian 16-bit value at byte offset `i` of a chunk. -/
def u16At (l : List Nat) (i : Nat) : Nat := l.getD i 0 + 256 * l.getD (i + 1) 0

/-- Little-endian 32-bit value of a 4-byte chunk (`Normal32::data` as read by
memcpy on a little-endian machine). -/
def u32le (l : List Nat) : Nat :=
  l.getD 0 0 + 256 * l.getD 1 0 + 65536 * l.getD 2 0 + 16777216 * l.getD 3 0

/-- Sign extension of a 10-bit field, exactly the bit-hack of
`Unpack<int16_t, 10, shift>` in util/bitpack.h: `(y ^ signbit) - signbit`
with `signbit = 1 << 9`. -/
def sext10 (v : Nat) : Int := (Nat.xor v 512 : Int) - 512

/-- Raw x component of a `Normal32` word: `Unpack<int16_t, 10, 2>(data)`. -/
def normalX (data : Nat) : Int := sext10 ((data >>> 2) &&& 1023)

/-- Raw y component of a `Normal32` word: `Unpack<int16_t, 10, 12>(data)`. -/
def normalY (data : Nat) : Int := sext10 ((data >>> 12) &&& 1023)

/-- Raw z component of a `Normal32` word: `Unpack<int16_t, 10, 22>(data)`. -/
def normalZ (data : Nat) : Int := sext10 ((data >>> 22) &&& 1023)

/-- Sum of squares of the raw components of a `Normal32` word. The unit
length checked by `Normal32::lenf()` is `sqrt sumSq / 500`. -/
def normalSumSq (data : Nat) : Int :=
  normalX data * normalX data + normalY data * normalY data + normalZ data * normalZ data

/-- Validity of a packed normal, `Normal32::Validate` of car.h: the unit
length `lenf = sqrt sumSq / 500` must satisfy `0.995 ≤ lenf ≤ 1.0`. In
exact arithmetic (the source computes with `float`, which is exact on
these integer squares and whose rounding does not move the comparison for
the integer boundary values) this is `990025 ≤ 4 * sumSq ∧
sumSq ≤ 250000`, since `0.995^2 * 500^2 = 990025 / 4`. -/
def normalValid (data : Nat) : Bool :=
  decide (990025 ≤ 4 * normalSumSq data ∧ normalSumSq data ≤ 250000)

/-- Validation loop of `Model::FromStream` over the decoded normal words:
`CHECK(n.Validate(), "Bad normal. i=", i, n, n.len())`, reported with the
offending index and (the square of) the computed length. -/
def checkNormals (i : Nat) : List (List Nat) → Except DecodeErr Unit
  | [] => .ok ()
  | w :: ws =>
    if normalValid (u32le w) then checkNormals (i + 1) ws
    else .error (.badNormal i (normalSumSq (u32le w)))

/-- One LOD mesh as decoded by `Model::FromStream` (car.h). Every record
is kept as the raw bytes the reader memcpy'd; the header counts are
little-endian views into `header`. -/
structure Model where
  header : List Nat
  verts : List Nat
  normals : List (List Nat)
  tris : List Nat
  quads : List Nat
  texTris : List Nat
  texQuads : List Nat
deriving DecidableEq

/-- Byte-level embedding of `Model::FromStream`: reads the 80-byte header,
then `num_verts` 8-byte vertices, `num_normals` 4-byte normal words
(validating each), then the four face sequences (16-byte solid faces,
28-byte textured faces), with the counts taken from the header at their
little-endian byte offsets (0, 2, 4, 6, 12, 14). -/
def Model.fromStream (s0 : List Nat) : Except DecodeErr (Model × List Nat) :=
  match readBytes 80 s0 with
  | .error e => .error e
  | .ok (h, s1) =>
    match readBytes (8 * u16At h 0) s1 with
    | .error e => .error e
    | .ok (v, s2) =>
      match readChunks 4 (u16At h 2) s2 with
      | .error e => .error e
      | .ok (nw, s3) =>
        match checkNormals 0 nw with
        | .error e => .error e
        | .ok _ =>
          match readBytes (16 * u16At h 4) s3 with
          | .error e => .error e
          | .ok (t, s4) =>
            match readBytes (16 * u16At h 6) s4 with
            | .error e => .error e
            | .ok (q, s5) =>
              match readBytes (28 * u16At h 12) s5 with
              | .error e => .error e
              | .ok (tt, s6) =>
                match readBytes (28 * u16At h 14) s6 with
                | .error e => .error e
                | .ok (tq, s7) => .ok (⟨h, v, nw, t, q, tt, tq⟩, s7)

/-- Byte-level embedding of `Model::Serialize`: writes header, verts,
normals and the four face sequences in order. -/
def Model.serialize (m : Model) : List Nat :=
  m.header ++ m.verts ++ m.normals.flatten ++ m.tris ++ m.quads ++ m.texTris ++ m.texQuads

/-- The shadow mesh of a CarObject (`CarObject::Shadow`), again as raw
record bytes. -/
structure Shadow where
  header : List Nat
  verts : List Nat
  tris : List Nat
  quads : List Nat
deriving DecidableEq

/-- Byte-level embedding of `CarObject::Shadow::FromStream`: a 28-byte
header, then `num_verts` 4-byte 2d vertices, `num_tris` and `num_quads`
4-byte shadow faces (counts at offsets 0, 2, 4). -/
def Shadow.fromStream (s0 : List Nat) : Except DecodeErr (Shadow × List Nat) :=
  match readBytes 28 s0 with
  | .error e => .error e
  | .ok (h, s1) =>
    match readBytes (4 * u16At h 0) s1 with
    | .error e => .error e
    | .ok (v, s2) =>
      match readBytes (4 * u16At h 2) s2 with
      | .error e => .error e
      | .ok (t, s3) =>
        match readBytes (4 * u16At h 4) s3 with
        | .error e => .error e
        | .ok (q, s4) => .ok (⟨h, v, t, q⟩, s4)

/-- Byte-level embedding of `CarObject::Shadow::Serialize`. -/
def Shadow.serialize (s : Shadow) : List Nat := s.header ++ s.verts ++ s.tris ++ s.quads

/-- A complete cdo/cno file as decoded by `CarObject::FromStream`. -/
structure CarObject where
  header : List Nat
  padding : List Nat
  numLods : List Nat
  unknown1 : List Nat
  lods : List Model
  shadow : Shadow
deriving DecidableEq

/-- Magic-and-padding check of `CarObject::Header::Validate`: the 4 magic
bytes are "GT\2\0" and the 20 padding bytes are zero. -/
def carHeaderValid (h : List Nat) : Bool :=
  decide (h.take 4 = [71, 84, 2, 0]) && ((h.drop 4).take 20).all (· = 0)

/-- Reads `n` consecutive Models (the LOD loop of `CarObject::FromStream`). -/
def readModels : Nat → List Nat → Except DecodeErr (List Model × List Nat)
  | 0, s => .ok ([], s)
  | n + 1, s =>
    match Model.fromStream s with
    | .error e => .error e
    | .ok (m, s1) =>
      match readModels n s1 with
      | .error e => .error e
      | .ok (ms, s2) => .ok (m :: ms, s2)

/-- Byte-level embedding of `CarObject::FromStream`: a validated 64-byte
header, an all-zero `0x828`-byte padding block (read as `0x828/2` 16-bit
words), the 16-bit LOD count, 13 unknown 16-bit words, `num_lods` Models,
the shadow mesh, and finally `CHECK_EQ(s.remain(), 0)`. -/
def CarObject.fromStream (bytes : List Nat) : Except DecodeErr CarObject :=
  match readBytes 64 bytes with
  | .error e => .error e
  | .ok (h, s1) =>
    if carHeaderValid h then
      match readBytes 2088 s1 with
      | .error e => .error e
      | .ok (pad, s2) =>
        if pad.all (· = 0) then
          match readBytes 2 s2 with
          | .error e => .error e
          | .ok (nl, s3) =>
            match readBytes 26 s3 with
            | .error e => .error e
            | .ok (u1, s4) =>
              match readModels (u16At nl 0) s4 with
              | .error e => .error e
              | .ok (lods, s5) =>
                match Shadow.fromStream s5 with
                | .error e => .error e
                | .ok (sh, s6) =>
                  if s6 = [] then .ok ⟨h, pad, nl, u1, lods, sh⟩
                  else .error .trailingData
        else .error .badPadding
    else .error .badHeader

/-- Byte-level embedding of `CarObject::Serialize`: header, padding,
`num_lods`, `unknown1`, every LOD in order, then the shadow. -/
def CarObject.serialize (o : CarObject) : List Nat :=
  o.header ++ o.padding ++ o.numLods ++ o.unknown1 ++
    (o.lods.map Model.serialize).flatten ++ o.shadow.serialize

theorem readBytes_ok {n : Nat} {s c r : List Nat}
    (h : readBytes n s = .ok (c, r)) : c ++ r = s ∧ c.length = n := by
  unfold readBytes at h
  split at h
  · cases h
    exact ⟨List.take_append_drop n s, List.length_take_of_le (by assumption)⟩
  · cases h

theorem readChunks_ok {k n : Nat} {s : List Nat} {cs : List (List Nat)} {r : List Nat}
    (h : readChunks k n s = .ok (cs, r)) : cs.flatten ++ r = s ∧ cs.length = n := by
  induction n generalizing s cs r with
  | zero => cases h; exact ⟨rfl, rfl⟩
  | succ n ih =>
    unfold readChunks at h
    cases hr : readBytes k s with
    | error e => rw [hr] at h; cases h
    | ok p =>
      obtain ⟨c, s1⟩ := p
      rw [hr] at h
      dsimp only at h
      cases hrc : readChunks k n s1 with
      | error e => rw [hrc] at h; cases h
      | ok p2 =>
        obtain ⟨cs1, s2⟩ := p2
        rw [hrc] at h
        dsimp only at h
        cases h
        obtain ⟨hb, _⟩ := readBytes_ok hr
        obtain ⟨hc, hl⟩ := ih hrc
        constructor
        · simp only [List.flatten, List.append_assoc, hc, hb]
        · simp [hl]

theorem Model.fromStream_ok {s0 r : List Nat} {m : Model}
    (h : Model.fromStream s0 = .ok (m, r)) :
    Model.serialize m ++ r = s0 ∧ checkNormals 0 m.normals = .ok () := by
  unfold Model.fromStream at h
  cases h80 : readBytes 80 s0 with
  | error e => rw [h80] at h; cases h
  | ok p =>
    obtain ⟨hd, s1⟩ := p
    rw [h80] at h
    dsimp only at h
    cases hv : readBytes (8 * u16At hd 0) s1 with
    | error e => rw [hv] at h; cases h
    | ok pv =>
      obtain ⟨v, s2⟩ := pv
      rw [hv] at h
      dsimp only at h
      cases hn : readChunks 4 (u16At hd 2) s2 with
      | error e => rw [hn] at h; cases h
      | ok pn =>
        obtain ⟨nw, s3⟩ := pn
        rw [hn] at h
        dsimp only at h
        cases hcn : checkNormals 0 nw with
        | error e => rw [hcn] at h; cases h
        | ok u =>
          rw [hcn] at h
          dsimp only at h
          cases ht : readBytes (16 * u16At hd 4) s3 with
          | error e => rw [ht] at h; cases h
          | ok pt =>
            obtain ⟨t, s4⟩ := pt
            rw [ht] at h
            dsimp only at h
            cases hq : readBytes (16 * u16At hd 6) s4 with
            | error e => rw [hq] at h; cases h
            | ok pq =>
              obtain ⟨q, s5⟩ := pq
              rw [hq] at h
              dsimp only at h
              cases htt : readBytes (28 * u16At hd 12) s5 with
              | error e => rw [htt] at h; cases h
              | ok ptt =>
                obtain ⟨tt, s6⟩ := ptt
                rw [htt] at h
                dsimp only at h
                cases htq : readBytes (28 * u16At hd 14) s6 with
                | error e => rw [htq] at h; cases h
                | ok ptq =>
                  obtain ⟨tq, s7⟩ := ptq
                  rw [htq] at h
                  dsimp only at h
                  cases h
                  refine ⟨?_, by cases u; exact hcn⟩
                  unfold Model.serialize
                  simp only [List.append_assoc]
                  rw [(readBytes_ok htq).1, (readBytes_ok htt).1, (readBytes_ok hq).1,
                    (readBytes_ok ht).1, (readChunks_ok hn).1, (readBytes_ok hv).1,
                    (readBytes_ok h80).1]

theorem Shadow.fromStream_roundtrip {s0 r : List Nat} {sh : Shadow}
    (h : Shadow.fromStream s0 = .ok (sh, r)) : Shadow.serialize sh ++ r = s0 := by
  unfold Shadow.fromStream at h
  cases h28 : readBytes 28 s0 with
  | error e => rw [h28] at h; cases h
  | ok p =>
    obtain ⟨hd, s1⟩ := p
    rw [h28] at h
    dsimp only at h
    cases hv : readBytes (4 * u16At hd 0) s1 with
    | error e => rw [hv] at h; cases h
    | ok pv =>
      obtain ⟨v, s2⟩ := pv
      rw [hv] at h
      dsimp only at h
      cases ht : readBytes (4 * u16At hd 2) s2 with
      | error e => rw [ht] at h; cases h
      | ok pt =>
        obtain ⟨t, s3⟩ := pt
        rw [ht] at h
        dsimp only at h
        cases hq : readBytes (4 * u16At hd 4) s3 with
        | error e => rw [hq] at h; cases h
        | ok pq =>
          obtain ⟨q, s4⟩ := pq
          rw [hq] at h
          dsimp only at h
          cases h
          unfold Shadow.serialize
          simp only [List.append_assoc]
          rw [(readBytes_ok hq).1, (readBytes_ok ht).1, (readBytes_ok hv).1,
            (readBytes_ok h28).1]

theorem readModels_ok {n : Nat} {s r : List Nat} {ms : List Model}
    (h : readModels n s = .ok (ms, r)) : (ms.map Model.serialize).flatten ++ r = s := by
  induction n generalizing s ms r with
  | zero => cases h; rfl
  | succ n ih =>
    unfold readModels at h
    cases hm : Model.fromStream s with
    | error e => rw [hm] at h; cases h
    | ok p =>
      obtain ⟨m, s1⟩ := p
      rw [hm] at h
      dsimp only at h
      cases hms : readModels n s1 with
      | error e => rw [hms] at h; cases h
      | ok p2 =>
        obtain ⟨ms1, s2⟩ := p2
        rw [hms] at h
        dsimp only at h
        cases h
        simp only [List.map_cons, List.flatten, List.append_assoc]
        rw [ih hms, (Model.fromStream_ok hm).1]

/-- Helper for C1: any buffer accepted by the CarObject reader is exactly
reproduced by the CarObject writer. -/
theorem carObject_serialize_fromStream {bytes : List Nat} {o : CarObject}
    (h : CarObject.fromStream bytes = .ok o) : CarObject.serialize o = bytes := by
  unfold CarObject.fromStream at h
  cases h64 : readBytes 64 bytes with
  | error e => rw [h64] at h; cases h
  | ok p =>
    obtain ⟨hd, s1⟩ := p
    rw [h64] at h
    dsimp only at h
    by_cases hval : carHeaderValid hd
    · rw [if_pos hval] at h
      cases hpad : readBytes 2088 s1 with
      | error e => rw [hpad] at h; cases h
      | ok pp =>
        obtain ⟨pad, s2⟩ := pp
        rw [hpad] at h
        dsimp only at h
        by_cases hz : pad.all (· = 0)
        · rw [if_pos hz] at h
          cases hnl : readBytes 2 s2 with
          | error e => rw [hnl] at h; cases h
          | ok pnl =>
            obtain ⟨nl, s3⟩ := pnl
            rw [hnl] at h
            dsimp only at h
            cases hu1 : readBytes 26 s3 with
            | error e => rw [hu1] at h; cases h
            | ok pu1 =>
              obtain ⟨u1, s4⟩ := pu1
              rw [hu1] at h
              dsimp only at h
              cases hms : readModels (u16At nl 0) s4 with
              | error e => rw [hms] at h; cases h
              | ok pms =>
                obtain ⟨lods, s5⟩ := pms
                rw [hms] at h
                dsimp only at h
                cases hsh : Shadow.fromStream s5 with
                | error e => rw [hsh] at h; cases h
                | ok psh =>
                  obtain ⟨sh, s6⟩ := psh
                  rw [hsh] at h
                  dsimp only at h
                  by_cases hrem : s6 = []
                  · rw [if_pos hrem] at h
                    cases h
                    unfold CarObject.serialize
                    have hshs := Shadow.fromStream_roundtrip hsh
                    rw [hrem] at hshs
                    simp only [List.append_assoc]
                    rw [← List.append_nil (Shadow.serialize sh), hshs, readModels_ok hms,
                      (readBytes_ok hu1).1, (readBytes_ok hnl).1, (readBytes_ok hpad).1,
                      (readBytes_ok h64).1]
                  · rw [if_neg hrem] at h; cases h
        · rw [if_neg hz] at h; cases h
    · rw [if_neg hval] at h; cases h

theorem readBytes_append (n : Nat) (l r : List Nat) (h : l.length = n) :
    readBytes n (l ++ r) = .ok (l, r) := by
  subst h
  unfold readBytes
  rw [if_pos (by simp), List.take_left, List.drop_left]

theorem readBytes_exact (n : Nat) (l : List Nat) (h : l.length = n) :
    readBytes n l = .ok (l, []) := by
  have := readBytes_append n l [] h
  simpa using this

theorem all_zero_replicate (n : Nat) : (List.replicate n (0 : Nat)).all (· = 0) = true := by
  rw [List.all_eq_true]
  intro x hx
  simp [List.eq_of_mem_replicate hx]

theorem checkNormals_all {ws : List (List Nat)} :
    ∀ {i : Nat}, checkNormals i ws = .ok () → ∀ w ∈ ws, normalValid (u32le w) = true := by
  induction ws with
  | nil => intro i _ w hw; cases hw
  | cons w0 ws ih =>
    intro i h w hw
    unfold checkNormals at h
    by_cases hval : normalValid (u32le w0)
    · rw [if_pos hval] at h
      cases List.mem_cons.mp hw with
      | inl he => rw [he]; exact hval
      | inr hm => exact ih h w hm
    · rw [if_neg hval] at h; cases h

/-- C1: for every byte buffer accepted by the CarObject decoder
(`CarObject::FromStream`), re-encoding the decoded object with
`CarObject::Serialize` reproduces exactly the original bytes; the
reserved-zero and unknown regions are the decoded ones, passed through
unchanged. -/
theorem c1_carobject_roundtrip (bytes : List Nat) (o : CarObject)
    (h : CarObject.fromStream bytes = .ok o) : CarObject.serialize o = bytes :=
  carObject_serialize_fromStream h

/-- Smallest well-formed cdo byte buffer: valid magic header, all-zero
padding, zero LODs and an empty shadow mesh. -/
def c1Bytes : List Nat := [71, 84, 2, 0] ++ List.replicate 2204 0

/-- The CarObject decoded from `c1Bytes`. -/
def c1Obj : CarObject :=
  ⟨71 :: 84 :: 2 :: 0 :: List.replicate 60 0, List.replicate 2088 0, List.replicate 2 0,
    List.replicate 26 0, [], ⟨List.replicate 28 0, [], [], []⟩⟩

theorem c1_parse_eval : CarObject.fromStream c1Bytes = .ok c1Obj := by
  have e1 : c1Bytes = (71 :: 84 :: 2 :: 0 :: List.replicate 60 0) ++
      (List.replicate 2088 0 ++ (List.replicate 2 0 ++
        (List.replicate 26 0 ++ List.replicate 28 0))) := by
    show [71, 84, 2, 0] ++ List.replicate 2204 0 = _
    simp only [List.cons_append, List.nil_append, ← List.replicate_add]
  rw [e1]
  unfold CarObject.fromStream
  rw [readBytes_append 64 (71 :: 84 :: 2 :: 0 :: List.replicate 60 0) _ (by simp)]
  dsimp only
  rw [if_pos (by decide)]
  rw [readBytes_append 2088 (List.replicate 2088 0) _ (List.length_replicate 2088 0)]
  dsimp only
  rw [if_pos (all_zero_replicate 2088)]
  rw [readBytes_append 2 (List.replicate 2 0) _ (List.length_replicate 2 0)]
  dsimp only
  rw [readBytes_append 26 (List.replicate 26 0) _ (List.length_replicate 26 0)]
  dsimp only
  have hnl : u16At (List.replicate 2 0) 0 = 0 := by decide
  rw [hnl]
  show (match Shadow.fromStream (List.replicate 28 0) with
    | Except.error e => Except.error e
    | Except.ok (sh, s6) =>
      if s6 = [] then Except.ok ⟨71 :: 84 :: 2 :: 0 :: List.replicate 60 0,
        List.replicate 2088 0, List.replicate 2 0, List.replicate 26 0, [], sh⟩
      else Except.error DecodeErr.trailingData) = Except.ok c1Obj
  rw [show Shadow.fromStream (List.replicate 28 0) =
    .ok (⟨List.replicate 28 0, [], [], []⟩, []) from by rfl]
  rfl

theorem c1_carobject_roundtrip_witness : CarObject.serialize c1Obj = c1Bytes :=
  c1_carobject_roundtrip c1Bytes c1Obj c1_parse_eval

/-- Model byte buffer whose single normal word 1000 encodes raw components
(250, 0, 0), i.e. unit-scaled length 0.5: header with num_normals = 1 and
all other counts zero, followed by the crafted word. -/
def c8BadBytes : List Nat := 0 :: 0 :: 1 :: 0 :: (List.replicate 76 0 ++ [232, 3, 0, 0])

/-- Model byte buffer whose single normal word 2000 encodes raw components
(500, 0, 0), i.e. unit-scaled length exactly 1. -/
def c8GoodBytes : List Nat := 0 :: 0 :: 1 :: 0 :: (List.replicate 76 0 ++ [208, 7, 0, 0])

/-- The Model decoded from `c8GoodBytes`. -/
def c8GoodModel : Model :=
  ⟨0 :: 0 :: 1 :: 0 :: List.replicate 76 0, [], [[208, 7, 0, 0]], [], [], [], []⟩

/-- C8: every normal decoded by `Model::FromStream` satisfies the
unit-length invariant `Normal32::Validate` (length in [0.995, 1.0]); and
the crafted 32-bit normal word 1000, which decodes to length 0.5
(sum of squares 62500), makes decoding of the containing model fail with
an error carrying the offending normal index 0 and its computed
(squared) length, so no model is returned. -/
theorem c8_normal_validity :
    (∀ s m r, Model.fromStream s = .ok (m, r) → ∀ w ∈ m.normals, normalValid (u32le w) = true)
    ∧ Model.fromStream c8BadBytes = .error (.badNormal 0 62500) :=
  ⟨fun _ _ _ h => checkNormals_all (Model.fromStream_ok h).2, by rfl⟩

theorem c8_normal_validity_witness : normalValid (u32le [208, 7, 0, 0]) = true :=
  c8_normal_validity.1 c8GoodBytes c8GoodModel [] (by rfl) [208, 7, 0, 0]
    (List.mem_singleton.mpr rfl)

/-- Resize of a std::vector / VecOutStream buffer: truncate to `n` elements
or zero-extend up to `n` (new elements are value-initialized to 0). -/
def resizeList (l : List Nat) (n : Nat) : List Nat :=
  l.take n ++ List.replicate (n - l.length) 0

theorem resizeList_length (l : List Nat) (n : Nat) : (resizeList l n).length = n := by
  simp only [resizeList, List.length_append, List.length_take, List.length_replicate]
  omega

/-- A cdp/cnp file as decoded by `CarPix::FromStream` (car.h): the 32-byte
header (palette count at offset 0, then 30 palette ids), the 576-byte
sub-palette chunks, the all-zero padding for the unused palette slots,
and the 4bpp pixel data. -/
structure CarPix where
  header : List Nat
  palettes : List (List Nat)
  padding : List Nat
  data : List Nat
deriving DecidableEq

/-- Byte-level embedding of `CarPix::FromStream`: reads the header, checks
`num_palettes <= 30`, reads the sub-palettes, reads and zero-checks the
`(30 - num_palettes) * 576` padding bytes, checks the stream position is
17312, reads `256 * 224 / 2 = 28672` bytes of 4bpp pixel data, resizes
the data vector to `256 * 128 = 32768` bytes, and requires the stream to
be fully consumed. -/
def CarPix.fromStream (bytes : List Nat) : Except DecodeErr CarPix :=
  match readBytes 32 bytes with
  | .error e => .error e
  | .ok (h, s1) =>
    if u16At h 0 ≤ 30 then
      match readChunks 576 (u16At h 0) s1 with
      | .error e => .error e
      | .ok (ps, s2) =>
        match readBytes ((30 - u16At h 0) * 576) s2 with
        | .error e => .error e
        | .ok (pad, s3) =>
          if pad.all (· = 0) then
            if bytes.length - s3.length = 17312 then
              match readBytes 28672 s3 with
              | .error e => .error e
              | .ok (d, s4) =>
                if s4 = [] then .ok ⟨h, ps, pad, resizeList d 32768⟩
                else .error .trailingData
            else .error .badDataOffset
          else .error .paddingNotZero
    else .error .tooManyPalettes

/-- Byte-level embedding of `CarPix::Serialize`: after its three CHECKs
(`num_palettes <= 30`, `num_palettes == palettes.size()`,
`data.size() == 256 * 224 / 2`) it writes the header and palettes, pads
the output to `32 + 30 * 576 = 17312` bytes, and appends the pixel data. -/
def CarPix.serialize (cp : CarPix) : Except DecodeErr (List Nat) :=
  if u16At cp.header 0 ≤ 30 then
    if u16At cp.header 0 = cp.palettes.length then
      if cp.data.length = 28672 then
        .ok (resizeList (cp.header ++ cp.palettes.flatten) 17312 ++ cp.data)
      else .error .dataSizeCheck
    else .error .numPalettesCheck
  else .error .tooManyPalettes

/-- C10: every CarPix accepted by `CarPix::FromStream` carries a pixel-data
vector of exactly 256 * 128 = 32768 bytes, strictly more than the
256 * 224 / 2 = 28672 bytes read from the stream, and therefore
`CarPix::Serialize` always fails its data-size check on a freshly decoded
CarPix: decode followed by encode never succeeds. -/
theorem c10_carpix_decode_encode (bytes : List Nat) (cp : CarPix)
    (h : CarPix.fromStream bytes = .ok cp) :
    cp.data.length = 256 * 128 ∧ 256 * 224 / 2 < 256 * 128 ∧
      CarPix.serialize cp = .error .dataSizeCheck := by
  unfold CarPix.fromStream at h
  cases h32 : readBytes 32 bytes with
  | error e => rw [h32] at h; cases h
  | ok p =>
    obtain ⟨hd, s1⟩ := p
    rw [h32] at h
    dsimp only at h
    by_cases hnp : u16At hd 0 ≤ 30
    · rw [if_pos hnp] at h
      cases hps : readChunks 576 (u16At hd 0) s1 with
      | error e => rw [hps] at h; cases h
      | ok pp =>
        obtain ⟨ps, s2⟩ := pp
        rw [hps] at h
        dsimp only at h
        cases hpad : readBytes ((30 - u16At hd 0) * 576) s2 with
        | error e => rw [hpad] at h; cases h
        | ok ppad =>
          obtain ⟨pad, s3⟩ := ppad
          rw [hpad] at h
          dsimp only at h
          by_cases hz : pad.all (· = 0)
          · rw [if_pos hz] at h
            by_cases hpos : bytes.length - s3.length = 17312
            · rw [if_pos hpos] at h
              cases hdat : readBytes 28672 s3 with
              | error e => rw [hdat] at h; cases h
              | ok pd =>
                obtain ⟨d, s4⟩ := pd
                rw [hdat] at h
                dsimp only at h
                by_cases hrem : s4 = []
                · rw [if_pos hrem] at h
                  cases h
                  refine ⟨resizeList_length d 32768, by norm_num, ?_⟩
                  unfold CarPix.serialize
                  rw [if_pos hnp, if_pos (readChunks_ok hps).2.symm,
                    if_neg (by rw [resizeList_length]; norm_num)]
                · rw [if_neg hrem] at h; cases h
            · rw [if_neg hpos] at h; cases h
          · rw [if_neg hz] at h; cases h
    · rw [if_neg hnp] at h; cases h

/-- Smallest well-formed cdp byte buffer: zero palettes, all-zero padding
filling the 30 palette slots, and an all-zero 4bpp pixel region. -/
def c10Bytes : List Nat := List.replicate 45984 0

/-- The CarPix decoded from `c10Bytes`. -/
def c10Pix : CarPix :=
  ⟨List.replicate 32 0, [], List.replicate 17280 0, resizeList (List.replicate 28672 0) 32768⟩

theorem CarPix.fromStream_build (hd pad d : List Nat)
    (hh : hd.length = 32) (hnp : u16At hd 0 = 0) (hpl : pad.length = 17280)
    (hpz : pad.all (· = 0) = true) (hdl : d.length = 28672) :
    CarPix.fromStream (hd ++ (pad ++ d)) = .ok ⟨hd, [], pad, resizeList d 32768⟩ := by
  unfold CarPix.fromStream
  rw [readBytes_append 32 hd _ hh]
  dsimp only
  rw [hnp]
  rw [if_pos (by norm_num)]
  rw [show readChunks 576 0 (pad ++ d) = .ok ([], pad ++ d) from rfl]
  dsimp only
  rw [show (30 - 0) * 576 = 17280 from by norm_num]
  rw [readBytes_append 17280 pad _ hpl]
  dsimp only
  rw [if_pos hpz]
  rw [if_pos (by
    rw [List.length_append, List.length_append, hh, hpl, hdl])]
  rw [readBytes_exact 28672 d hdl]
  dsimp only
  rw [if_pos rfl]

theorem c10_parse_eval : CarPix.fromStream c10Bytes = .ok c10Pix := by
  have e1 : c10Bytes = List.replicate 32 0 ++
      (List.replicate 17280 0 ++ List.replicate 28672 0) := by
    show List.replicate 45984 (0 : Nat) = _
    rw [← List.replicate_add, ← List.replicate_add]
  rw [e1]
  exact CarPix.fromStream_build (List.replicate 32 0) (List.replicate 17280 0)
    (List.replicate 28672 0) (List.length_replicate 32 0) (by decide)
    (List.length_replicate 17280 0) (all_zero_replicate 17280)
    (List.length_replicate 28672 0)

theorem c10_carpix_decode_encode_witness :
    c10Pix.data.length = 256 * 128 ∧ 256 * 224 / 2 < 256 * 128 ∧
      CarPix.serialize c10Pix = .error .dataSizeCheck :=
  c10_carpix_decode_encode c10Bytes c10Pix c10_parse_eval

/-- Nibble unpacking of `CarPix::Pixels` (car.h): each 4bpp byte becomes
two 8bpp pixels, `(pixel << 4) & 0xF0` then `pixel & 0xF0`, i.e. each
nibble is placed in the high bits of its output byte. -/
def carPixPixels : List Nat → List Nat
  | [] => []
  | p :: rest => ((p <<< 4) &&& 240) :: (p &&& 240) :: carPixPixels rest

/-- Packing loop of `PackCarPixData` (car_from_obj.h): for each adjacent
(even, odd) pixel pair emit the uint8 `(odd << 4) | even`; the `&&& 255`
is the uint8 truncation of the assignment to `cdp.data[i / 2]`. -/
def packCarPixData : List Nat → List Nat
  | e :: o :: rest => (((o <<< 4) ||| e) &&& 255) :: packCarPixData rest
  | _ => []

set_option maxRecDepth 4000 in
theorem packPix_byte : ∀ p : Nat, p < 256 →
    (((p &&& 240) <<< 4) ||| ((p <<< 4) &&& 240)) &&& 255 = p % 16 * 16 := by decide

/-- Helper for C3: repacking the human-viewable `Pixels` image does not
restore the original 4bpp bytes; it produces the low nibble of each byte
moved to the high position. -/
theorem pack_pixels_eq (d : List Nat) (hd : ∀ b ∈ d, b < 256) :
    packCarPixData (carPixPixels d) = d.map (fun b => b % 16 * 16) := by
  induction d with
  | nil => rfl
  | cons p rest ih =>
    show (((p &&& 240) <<< 4 ||| ((p <<< 4) &&& 240)) &&& 255) ::
        packCarPixData (carPixPixels rest) = p % 16 * 16 :: rest.map (fun b => b % 16 * 16)
    rw [packPix_byte p (hd p (List.mem_cons_self p rest)),
      ih (fun b hb => hd b (List.mem_cons_of_mem p hb))]

/-- A full-size 4bpp buffer (256 * 256 / 2 = 32768 bytes, even length)
whose first byte is 0x01. -/
def c3Buf : List Nat := 1 :: List.replicate 32767 0

theorem c3Buf_bytes : ∀ b ∈ c3Buf, b < 256 := by
  intro b hb
  cases List.mem_cons.mp hb with
  | inl he => rw [he]; norm_num
  | inr hm => rw [List.eq_of_mem_replicate hm]; norm_num

/-- C3 counterexample: unpacking the even-length 4bpp buffer `c3Buf` with
`CarPix::Pixels` and re-packing with `PackCarPixData` does not reproduce
the original bytes (the first byte 0x01 comes back as 0x10). -/
theorem c3_pack_unpack_counterexample :
    packCarPixData (carPixPixels c3Buf) ≠ c3Buf ∧ c3Buf.length % 2 = 0 := by
  constructor
  · rw [pack_pixels_eq c3Buf c3Buf_bytes]
    intro heq
    rw [show c3Buf = 1 :: List.replicate 32767 0 from rfl, List.map_cons,
      List.cons_eq_cons] at heq
    exact absurd heq.1 (by norm_num)
  · rw [show c3Buf.length = 32768 from by
      rw [show c3Buf = 1 :: List.replicate 32767 0 from rfl, List.length_cons,
        List.length_replicate]]

/-- C3 (amended): `PackCarPixData` packs each adjacent (even, odd) pixel
pair as `(odd << 4) | even`, but `CarPix::Pixels` places the nibbles in
the HIGH bits of the 8bpp pixels, so re-packing its output yields, for
every byte of the original buffer, the low nibble moved to the high
position (`b % 16 * 16`) instead of the byte itself: the round trip is
not the identity. -/
theorem c3_pack_of_pixels_amended (d : List Nat) (hd : ∀ b ∈ d, b < 256) :
    packCarPixData (carPixPixels d) = d.map (fun b => b % 16 * 16) :=
  pack_pixels_eq d hd

theorem c3_pack_of_pixels_amended_witness :
    packCarPixData (carPixPixels c3Buf) = c3Buf.map (fun b => b % 16 * 16) :=
  c3_pack_of_pixels_amended c3Buf c3Buf_bytes

/-- Packing of `Color16::SetRgb` (car.h):
`data = (r >> 3) | ((g >> 3) << 5) | ((b >> 3) << 10) | ((fo & 1) << 15)`.
The static builder `Color16::FromRgb8(r, g, b, fo)` called by
`RgbaToColor16` is not among the provided sources; it builds the value
that `SetRgb` assigns. -/
def setRgb (r g b fo : Nat) : Nat :=
  (((r >>> 3) ||| ((g >>> 3) <<< 5)) ||| ((b >>> 3) <<< 10)) ||| ((fo &&& 1) <<< 15)

/-- `RgbaToColor16` (car_from_obj.h): alpha zero gives the empty
(transparent) Color16 with packed value 0; otherwise the color is packed
with the force-opaque bit set exactly for pure black input. -/
def rgbaToColor16 (r g b a : Nat) : Nat :=
  if a = 0 then 0
  else setRgb r g b (if r = 0 ∧ g = 0 ∧ b = 0 then 1 else 0)

/-- `Color16::opaque` (car.h): a color renders opaque iff its packed value
is nonzero. -/
def color16Opaque (data : Nat) : Bool := data ≠ 0

/-- `Color16::force_opaque` (car.h): the padding bit 15. -/
def color16ForceOpaque (data : Nat) : Nat := (data >>> 15) &&& 1

/-- C4 failing input: the opaque near-black sample (r, g, b, a) =
(4, 4, 4, 255) packs to 0, the canonical transparent color, so the
resulting Color16 is NOT opaque even though alpha is nonzero — contrary
to the claim and to the source comment "Fully opaque otherwise". The
pure-black part behaves as claimed (shown at (0, 0, 0, 255) for
contrast). -/
theorem c4_rgba_near_black_eval :
    rgbaToColor16 4 4 4 255 = 0 ∧
    color16Opaque (rgbaToColor16 4 4 4 255) = false ∧
    color16Opaque (rgbaToColor16 0 0 0 255) = true ∧
    color16ForceOpaque (rgbaToColor16 0 0 0 255) = 1 ∧
    color16ForceOpaque (rgbaToColor16 4 4 4 255) = 0 ∧
    rgbaToColor16 4 4 4 0 = 0 := by decide

/-- Observable effects of the cdo-save block of `PackCdo` (cdotool.cpp):
`Save` writes the output file, then `CHECK_LE(size, 20480)` runs; a CHECK
failure aborts the process and is the last event of the trace. -/
inductive SaveEvent where
  | savedCdo (bytes : List Nat) : SaveEvent
  | failedSizeCheck (n : Nat) : SaveEvent
deriving DecidableEq

/-- Event trace of the cdo-save block of `PackCdo` (cdotool.cpp, lines
242-255): the serialized CarObject bytes are saved first; only then is
the 20480-byte platform ceiling checked, aborting on failure. -/
def saveCdoSteps (cdoBytes : List Nat) : List SaveEvent :=
  [.savedCdo cdoBytes] ++
    (if cdoBytes.length ≤ 20480 then [] else [.failedSizeCheck cdoBytes.length])

/-- Serialized CarObject bytes one over the 20480-byte ceiling. -/
def c9Bytes : List Nat := List.replicate 20481 0

/-- C9 counterexample: for the oversized serialized buffer `c9Bytes`
(20481 bytes), the size check does fail, but the output file has already
been written: the save event IS in the trace, refuting the claim that no
output is produced when the ceiling is exceeded. -/
theorem saveCdoSteps_oversize (b : List Nat) (h : 20480 < b.length) :
    saveCdoSteps b = [.savedCdo b, .failedSizeCheck b.length] := by
  unfold saveCdoSteps
  rw [if_neg (by omega)]
  rfl

theorem c9_saved_before_check_counterexample :
    20480 < c9Bytes.length ∧
    SaveEvent.failedSizeCheck c9Bytes.length ∈ saveCdoSteps c9Bytes ∧
    SaveEvent.savedCdo c9Bytes ∈ saveCdoSteps c9Bytes := by
  have hl : c9Bytes.length = 20481 := List.length_replicate 20481 0
  have hb : 20480 < c9Bytes.length := by rw [hl]; norm_num
  refine ⟨hb, ?_, ?_⟩
  · rw [saveCdoSteps_oversize c9Bytes hb]
    exact List.mem_cons_of_mem _ (List.mem_singleton.mpr rfl)
  · rw [saveCdoSteps_oversize c9Bytes hb]
    exact List.mem_cons_self _ _

/-- C9 (amended): whenever the serialized byte length of the CarObject
exceeds the 20480-byte platform ceiling, the final check of the encode
path fails and aborts — but only after the output file has been saved, so
the oversized output is produced. -/
theorem c9_size_check_amended (b : List Nat) (h : 20480 < b.length) :
    saveCdoSteps b = [.savedCdo b, .failedSizeCheck b.length] :=
  saveCdoSteps_oversize b h

theorem c9_size_check_amended_witness :
    saveCdoSteps c9Bytes = [.savedCdo c9Bytes, .failedSizeCheck c9Bytes.length] :=
  c9_size_check_amended c9Bytes
    (by rw [show c9Bytes.length = 20481 from List.length_replicate 20481 0]; norm_num)

/-- 5-bit red channel of a packed Color16 (`Color16::r5`). -/
def r5 (c : Nat) : Nat := c &&& 31

/-- 5-bit green channel of a packed Color16 (`Color16::g5`). -/
def g5 (c : Nat) : Nat := (c >>> 5) &&& 31

/-- 5-bit blue channel of a packed Color16 (`Color16::b5`). -/
def b5 (c : Nat) : Nat := (c >>> 10) &&& 31

/-- `ColorDistSq` (util/color.h): squared distance between two packed
colors over the 5-bit channels, plus 255^2 when the force-opaque bits
differ. -/
def colorDistSq (a b : Nat) : Int :=
  let dr : Int := (r5 a : Int) - (r5 b : Int)
  let dg : Int := (g5 a : Int) - (g5 b : Int)
  let db : Int := (b5 a : Int) - (b5 b : Int)
  let da : Int := if color16ForceOpaque a ≠ color16ForceOpaque b then 255 else 0
  dr * dr + dg * dg + db * db + da * da

/-- The working record of `QuantizeColors` (util/color.h): a color, its
pixel count, and its score; `none` stands for the initial score
`kInf = +infinity`. All finite scores that arise are exact: they are
squared color distances at most 3 * 31^2 + 255^2, on which the float
arithmetic of the source is exact. -/
structure QC where
  color : Nat
  numPixels : Nat
  score : Option Int
deriving DecidableEq

/-- Empty QC used only as the out-of-range default of list indexing. -/
def qcDefault : QC := ⟨0, 0, none⟩

/-- The `std::min(score, colors[i].score)` update: a finite new score
against a possibly-infinite stored score. -/
def smin (x : Int) (s : Option Int) : Int :=
  match s with
  | none => x
  | some y => min x y

/-- The `c.score > 0` test of the redistribution loop; `kInf > 0` holds. -/
def scorePos (s : Option Int) : Bool :=
  match s with
  | none => true
  | some y => decide (0 < y)

/-- Seed scan of `QuantizeColors` (the loop commented "Find the color with
the most pixels"): starts at `c_next = 0`, `c_num = colors[0].num_pixels`,
and takes index `i` whenever `colors[i].num_pixels < c_num` — the
comparison in the source is `<`, so it finds the FEWEST-pixel color. -/
def seedScanGo : List QC → Nat → Nat → Nat → Nat
  | [], _, cNext, _ => cNext
  | c :: rest, i, cNext, cNum =>
    if c.numPixels < cNum then seedScanGo rest (i + 1) i c.numPixels
    else seedScanGo rest (i + 1) cNext cNum

/-- Scoring pass of the selection loop of `QuantizeColors`: assigns
`score[i] := min(dist(last, color[i]), score[i])` to every color and
tracks the index of the highest score (strictly above the running
maximum, which starts at 0); when no score exceeds 0 the previous
`c_next` is kept. -/
def scorePass (lastColor : Nat) : List QC → Nat → Int → Nat → (List QC × Nat)
  | [], _, _, cNext => ([], cNext)
  | c :: rest, i, highest, cNext =>
    let sc := smin (colorDistSq lastColor c.color) c.score
    if highest < sc then
      let (rest2, cn) := scorePass lastColor rest (i + 1) sc i
      ({c with score := some sc} :: rest2, cn)
    else
      let (rest2, cn) := scorePass lastColor rest (i + 1) highest cNext
      ({c with score := some sc} :: rest2, cn)

/-- Selection loop of `QuantizeColors` (the `while (true)` farthest-point
loop): pushes `colors[c_next]` into the final palette, stops once the
final palette has reached `to_find` entries, and otherwise runs the
scoring pass to pick the next color. The fuel argument only bounds the
iteration count; `to_find + 1` is always enough since every iteration
pushes one color. -/
def selectLoop (toFind : Nat) : Nat → List QC → Nat → List QC → (List QC × List QC)
  | 0, cs, _, finals => (cs, finals)
  | fuel + 1, cs, cNext, finals =>
    let finals2 := finals ++ [cs.getD cNext qcDefault]
    if toFind ≤ finals2.length then (cs, finals2)
    else
      let (cs2, cNext2) := scorePass (cs.getD cNext qcDefault).color cs 0 0 cNext
      selectLoop toFind fuel cs2 cNext2 finals2

/-- Scan for the final color nearest to `c` (the redistribution loop's
inner search): first strict minimum, starting from `i_best = 0` and
`d_best = kInt64Max`. -/
def nearestGo (c : Nat) : List QC → Nat → Nat → Int → Nat
  | [], _, iBest, _ => iBest
  | f :: rest, i, iBest, dBest =>
    let d := colorDistSq c f.color
    if d < dBest then nearestGo c rest (i + 1) i d
    else nearestGo c rest (i + 1) iBest dBest

/-- `kInt64Max` of util/color.h. -/
def kInt64Max : Int := 9223372036854775807

/-- Redistribution loop of `QuantizeColors`: every color whose score is
still positive (the comment says "colors which did not appear in the
final palette", but the last-chosen color also still has a positive
score) adds its pixel count to the nearest final color. -/
def redistribute (cs finals : List QC) : List QC :=
  cs.foldl
    (fun fin c =>
      if scorePos c.score then
        let i := nearestGo c.color fin 0 0 kInt64Max
        fin.set i
          (let e := fin.getD i qcDefault
           { e with numPixels := e.numPixels + c.numPixels })
      else fin)
    finals

/-- Ordered-map insertion with overwrite. A `std::map<Color16, uint16_t>`
is modelled as an association list sorted ascending by the packed 16-bit
value; Color16 has no comparator in the provided sources (std::map
requires one), so following the pattern of `Vec2::operator<` and
`Vec4::operator<` in util/vec.h it compares the packed `data` word. -/
def insertAssoc (m : List (Nat × Nat)) (k v : Nat) : List (Nat × Nat) :=
  match m with
  | [] => [(k, v)]
  | (k2, v2) :: rest =>
    if k < k2 then (k, v) :: (k2, v2) :: rest
    else if k = k2 then (k, v) :: rest
    else (k2, v2) :: insertAssoc rest k v

/-- `QuantizeColors(inout_colors, n)` of util/color.h on a histogram given
as a sorted association list (color, num_pixels). The source CHECKs
`n > 0` on entry; every caller passes `n ≥ 1`. A histogram of at most `n`
entries is returned unchanged. Otherwise: transparent pixels (packed
value 0) are set aside, the seed is chosen by the seed scan, the
farthest-point selection loop fills the final palette, excluded pixel
counts are redistributed, the transparent color is re-appended, and the
result is written back into a fresh map. -/
def quantizeColors (n : Nat) (histo : List (Nat × Nat)) : List (Nat × Nat) :=
  if histo.length ≤ n then histo
  else
    let transparentNum := ((histo.filter (fun p => p.1 = 0)).map (fun p => p.2)).sum
    let cs : List QC := (histo.filter (fun p => p.1 ≠ 0)).map (fun p => ⟨p.1, p.2, none⟩)
    let toFind := if transparentNum ≠ 0 then n - 1 else n
    let seed := seedScanGo (cs.drop 1) 1 0 ((cs.headD qcDefault).numPixels)
    let p := selectLoop toFind (toFind + 1) cs seed []
    let fin2 := redistribute p.1 p.2
    let fin3 := if transparentNum ≠ 0 then fin2 ++ [⟨0, transparentNum, some 0⟩] else fin2
    fin3.foldl (fun m e => insertAssoc m e.color e.numPixels) []

/-- C2 failing input: the histogram {color 1 ↦ 5 px, color 2 ↦ 1 px,
color 3 ↦ 3 px} quantized to one color. The seed — here the single
surviving color — is color 2, the color with the FEWEST pixels, because
the seed scan compares with `<`; the claim (and the source comment "Find
the color with the most pixels") requires color 1. The count 10 also
shows the seed color's own count being re-added by the redistribution
loop. -/
theorem c2_seed_lowest_count_eval :
    quantizeColors 1 [(1, 5), (2, 1), (3, 3)] = [(2, 10)] ∧
    (∀ p ∈ quantizeColors 1 [(1, 5), (2, 1), (3, 3)], p.1 = 2) := by decide

/-- C6 failing input: the histogram {transparent 0 ↦ 1 px, color 1 ↦ 1 px}
quantized with maxColors = 1. The output has 2 entries (more than
maxColors) and total pixel count 3, while the input total is 2: both the
cardinality bound and pixel-count conservation fail. -/
theorem c6_quantize_cardinality_conservation_eval :
    quantizeColors 1 [(0, 1), (1, 1)] = [(0, 1), (1, 2)] ∧
    1 < (quantizeColors 1 [(0, 1), (1, 1)]).length ∧
    ((quantizeColors 1 [(0, 1), (1, 1)]).map (fun p => p.2)).sum = 3 ∧
    (([((0 : Nat), (1 : Nat)), (1, 1)]).map (fun p => p.2)).sum = 2 := by decide

/-- `PaletteData` of car_from_obj.h: a color histogram (sorted association
list, see `insertAssoc`) plus the owning-face index set. The
`unordered_set<uint16_t>` of faces is modelled as a duplicate-free list
with append-if-absent insertion. -/
structure PData where
  colors : List (Nat × Nat)
  faces : List Nat
deriving DecidableEq

/-- Palette default used only as the out-of-range default of indexing. -/
def pdDefault : PData := ⟨[], []⟩

/-- Set insertion for the owning-face set. -/
def insertFace (fs : List Nat) (f : Nat) : List Nat := if f ∈ fs then fs else fs ++ [f]

/-- Ordered-map insertion that adds to an existing count
(`a.colors[kv.first] += kv.second`). -/
def insertAddAssoc (m : List (Nat × Nat)) (k v : Nat) : List (Nat × Nat) :=
  match m with
  | [] => [(k, v)]
  | (k2, v2) :: rest =>
    if k < k2 then (k, v) :: (k2, v2) :: rest
    else if k = k2 then (k2, v2 + v) :: rest
    else (k2, v2) :: insertAddAssoc rest k v

/-- `PaletteDataUnion` (car_from_obj.h): merges all colors and faces of
`b` into `a`. -/
def paletteDataUnion (a b : PData) : PData :=
  ⟨b.colors.foldl (fun m kv => insertAddAssoc m kv.1 kv.2) a.colors,
   b.faces.foldl insertFace a.faces⟩

/-- `PaletteDist` of util/color.h. -/
structure PaletteDist where
  sumSqDist : Int
  unionSize : Int
deriving DecidableEq

/-- Minimum squared distance from color `c` to any color of `vb`,
starting from `kInt64Max` as in `ComputePaletteDist`. -/
def minDistTo (c : Nat) (vb : List Nat) : Int :=
  vb.foldl (fun d b => min d (colorDistSq c b)) kInt64Max

/-- `ComputePaletteDist` (util/color.h): with `va` the smaller and `vb`
the larger key list, the union size starts at `vb.size()` and counts the
colors of `va` at positive distance, and the distance is the sum of the
minimum distances of the colors of `va` to `vb`. -/
def computePaletteDist (a b : List (Nat × Nat)) : PaletteDist :=
  let va0 := a.map (fun p => p.1)
  let vb0 := b.map (fun p => p.1)
  let p := if vb0.length < va0.length then (vb0, va0) else (va0, vb0)
  p.1.foldl
    (fun (out : PaletteDist) c =>
      let d := minDistTo c p.2
      ⟨out.sumSqDist + d, out.unionSize + if 0 < d then 1 else 0⟩)
    ⟨0, (p.2.length : Int)⟩

/-- Stable insertion for sorting by descending owning-face count (the
first `std::sort` of `MergePalettes` with comparator
`a.face_index.size() > b.face_index.size()`; ties keep their relative
order, a deterministic refinement of the unspecified std::sort order). -/
def insertByFaces (x : PData) : List PData → List PData
  | [] => [x]
  | y :: ys => if y.faces.length < x.faces.length then x :: y :: ys else y :: insertByFaces x ys

/-- Sort by descending owning-face count. -/
def sortByFacesDesc (l : List PData) : List PData := l.foldr insertByFaces []

/-- Stable insertion for sorting by descending color count (the second
and third `std::sort` of `MergePalettes`). -/
def insertByColors (x : PData) : List PData → List PData
  | [] => [x]
  | y :: ys =>
    if y.colors.length < x.colors.length then x :: y :: ys else y :: insertByColors x ys

/-- Sort by descending color count. -/
def sortByColorsDesc (l : List PData) : List PData := l.foldr insertByColors []

/-- The pop_back loop removing trailing palettes with no owning face. -/
def dropTrailingEmptyFaces (l : List PData) : List PData :=
  (l.reverse.dropWhile (fun p => p.faces.isEmpty)).reverse

/-- One doubly-indexed merge pass of `MergePalettes` (used for both the
zero-distance pass and the union-fits pass, which differ only in the
merge condition `pred`): for each target index `i` and source index
`j > i`, when the distance satisfies `pred` the source is merged into the
target (with the `CHECK_LE(target.colors.size(), max_colors)` of the
source modelled as a `none` result on failure), the source slot is
swapped with the last palette and the last palette is popped; otherwise
`j` advances. The structural fuel only bounds the number of steps; every
step either advances an index or shrinks the list, so
`(len + 2) * (len + 2)` steps always suffice. -/
def mergeLoop (pred : PaletteDist → Bool) (maxColors : Nat) :
    Nat → Nat → Nat → List PData → Option (List PData)
  | 0, _, _, ps => some ps
  | fuel + 1, i, j, ps =>
    if i < ps.length then
      if j < ps.length then
        let target := ps.getD i pdDefault
        let source := ps.getD j pdDefault
        if pred (computePaletteDist target.colors source.colors) then
          let merged := paletteDataUnion target source
          if merged.colors.length ≤ maxColors then
            let ps2 := ps.set i merged
            let ps3 := (ps2.set j (ps2.getD (ps2.length - 1) pdDefault)).dropLast
            mergeLoop pred maxColors fuel i j ps3
          else none
        else mergeLoop pred maxColors fuel i (j + 1) ps
      else mergeLoop pred maxColors fuel (i + 1) (i + 2) ps
    else some ps

/-- The inner best-target search of the destructive loop of
`MergePalettes`: the target index `j < iEnd` minimizing `sum_sq_dist`
(first strict minimum, starting from `j_best = 0`,
`dist_best = kInt64Max`). -/
def bestTargetGo (ps : List PData) (src : PData) : Nat → Nat → Nat → Int → Nat
  | j, iEnd, jBest, dBest =>
    if j < iEnd then
      let d := (computePaletteDist (ps.getD j pdDefault).colors src.colors).sumSqDist
      if d < dBest then bestTargetGo ps src (j + 1) iEnd j d
      else bestTargetGo ps src (j + 1) iEnd jBest dBest
    else jBest
termination_by j iEnd => iEnd - j

/-- The destructive loop of `MergePalettes`: while more than
`max_palettes` palettes remain, fold the last palette into the best
target found by `bestTargetGo`, re-quantize the target, and pop the
last palette. Fuel bounds the number of pops. -/
def shrinkLoop (maxPalettes maxColors : Nat) : Nat → List PData → List PData
  | 0, ps => ps
  | fuel + 1, ps =>
    if maxPalettes < ps.length then
      let src := ps.getD (ps.length - 1) pdDefault
      let jBest := bestTargetGo ps src 0 (ps.length - 1) 0 kInt64Max
      let merged := paletteDataUnion (ps.getD jBest pdDefault) src
      let quant := { merged with colors := quantizeColors maxColors merged.colors }
      shrinkLoop maxPalettes maxColors fuel ((ps.set jBest quant).dropLast)
    else ps

/-- `MergePalettes(palettes, max_palettes, max_colors)` (car_from_obj.h):
drop trailing no-face palettes after sorting by face count, quantize
every palette, sort by color count, merge exactly-overlapping palettes
(distance 0), merge palettes whose union fits in `max_colors`, sort
again, then destructively fold the smallest palettes until at most
`max_palettes` remain. A `none` result models an aborting CHECK. -/
def mergePalettes (maxPalettes maxColors : Nat) (ps0 : List PData) : Option (List PData) :=
  let ps1 := dropTrailingEmptyFaces (sortByFacesDesc ps0)
  let ps2 := ps1.map (fun p => { p with colors := quantizeColors maxColors p.colors })
  let ps3 := sortByColorsDesc ps2
  match mergeLoop (fun d => d.sumSqDist = 0) maxColors
      ((ps3.length + 2) * (ps3.length + 2)) 0 1 ps3 with
  | none => none
  | some ps4 =>
    match mergeLoop (fun d => d.unionSize ≤ (maxColors : Int)) maxColors
        ((ps4.length + 2) * (ps4.length + 2)) 0 1 ps4 with
    | none => none
    | some ps5 =>
      let ps6 := sortByColorsDesc ps5
      some (shrinkLoop maxPalettes maxColors (ps6.length + 1) ps6)

/-- C7 failing input: a single palette with histogram {transparent 0 ↦ 1,
color 1 ↦ 1} owned by face 0, merged with maxPalettes = 1 and
maxColors = 1. After `MergePalettes` completes, the surviving palette
holds 2 colors, exceeding maxColors = 1 (the quantizer keeps a reserved
transparent slot on top of the selected color and so can return
maxColors + 1 entries), so the per-palette color bound of the claim
fails; the palette count (1) and the removal of face-less palettes are
respected here. -/
theorem c7_merge_budget_eval :
    mergePalettes 1 1 [⟨[(0, 1), (1, 1)], [0]⟩] = some [⟨[(0, 1), (1, 2)], [0]⟩] ∧
    (∀ ps, mergePalettes 1 1 [⟨[(0, 1), (1, 1)], [0]⟩] = some ps →
      ∃ p ∈ ps, 1 < p.colors.length) := by
  refine ⟨by decide, ?_⟩
  intro ps hps
  rw [show mergePalettes 1 1 [⟨[(0, 1), (1, 1)], [0]⟩] = some [⟨[(0, 1), (1, 2)], [0]⟩]
    from by decide] at hps
  cases hps
  exact ⟨⟨[(0, 1), (1, 2)], [0]⟩, List.mem_singleton.mpr rfl, by norm_num⟩

/-- The fields of a face record that the normal-transfer pass reads and
writes (car.h `Face`): the raw 4-byte vertex-index word `i_vert_data`
(`ivert`) and the packed words `data_a`..`data_d`. -/
structure CFace where
  ivert : Nat
  a : Nat
  b : Nat
  c : Nat
  d : Nat
deriving DecidableEq

/-- Face default used only as the out-of-range default of indexing. -/
def dummyFace : CFace := ⟨0, 0, 0, 0, 0⟩

/-- `Face::has_normals` (car.h): `flags_b() >> 3` where `flags_b` unpacks
4 bits at shift 12 of `data_b`; nonzero means the face carries normals. -/
def CFace.hasNormals (f : CFace) : Bool := decide (((f.b >>> 12) &&& 15) >>> 3 ≠ 0)

/-- `Face::CopyNormalIndicesFrom` (car.h): keep the target's 5 flags_a
bits, take the rest of `data_a` from the donor (`~0x1F = 0xFFE0`), and
copy `data_b` and `data_c` wholesale — this also transfers the
has-normals flag. -/
def CFace.copyNormalIndicesFrom (t s : CFace) : CFace :=
  { t with a := (t.a &&& 31) ||| (s.a &&& 65504), b := s.b, c := s.c }

/-- Lookup in the `unordered_map<uint32_t, Face*>` of `TransferNormals`,
modelled as an association list from vertex-index word to face position. -/
def mfind : List (Nat × Nat) → Nat → Option Nat
  | [], _ => none
  | e :: rest, k => if e.1 = k then some e.2 else mfind rest k

/-- `unordered_map::erase` of the found key. -/
def merase : List (Nat × Nat) → Nat → List (Nat × Nat)
  | [], _ => []
  | e :: rest, k => if e.1 = k then merase rest k else e :: merase rest k

/-- `need_normals[key] = &f`: overwrite-insert. -/
def minsert (m : List (Nat × Nat)) (k v : Nat) : List (Nat × Nat) :=
  (k, v) :: merase m k

/-- First pass of `TransferNormals` (car_obj.h): walk the faces in drawing
order and record, for every face without normals, its position keyed by
the raw vertex-index word; a later face with the same word overwrites the
entry. `rem` counts the remaining faces from position `i`. -/
def buildNeedGo (faces : List CFace) : Nat → Nat → List (Nat × Nat) → List (Nat × Nat)
  | _, 0, m => m
  | i, rem + 1, m =>
    buildNeedGo faces (i + 1) rem
      (if (faces.getD i dummyFace).hasNormals then m
       else minsert m (faces.getD i dummyFace).ivert i)

/-- The `need_normals` map after the first pass. -/
def buildNeed (faces : List CFace) : List (Nat × Nat) := buildNeedGo faces 0 faces.length []

/-- Second pass of `TransferNormals`: walk the faces in order; every face
that (currently) carries normals and whose vertex-index word is still in
the map donates its normal indices to the mapped face, and the key is
erased. The faces list is mutated in place, so a donation is visible to
later iterations. Fuel `rem` counts the remaining faces. -/
def transferGo : Nat → List CFace → List (Nat × Nat) → Nat → List CFace
  | 0, arr, _, _ => arr
  | rem + 1, arr, m, i =>
    if i < arr.length then
      if (arr.getD i dummyFace).hasNormals then
        match mfind m (arr.getD i dummyFace).ivert with
        | some j =>
          transferGo rem
            (arr.set j ((arr.getD j dummyFace).copyNormalIndicesFrom (arr.getD i dummyFace)))
            (merase m (arr.getD i dummyFace).ivert) (i + 1)
        | none => transferGo rem arr m (i + 1)
      else transferGo rem arr m (i + 1)
    else arr

/-- `TransferNormals` (car_obj.h): both passes. -/
def transferNormals (faces : List CFace) : List CFace :=
  transferGo faces.length faces (buildNeed faces) 0

/-- Position `i` holds a donor for key `k`: the face carries normals and
its vertex-index word is `k` (out-of-range positions yield `dummyFace`,
which carries no normals). -/
def isDonor (faces : List CFace) (k i : Nat) : Bool :=
  (faces.getD i dummyFace).hasNormals && ((faces.getD i dummyFace).ivert == k)

/-- Position `i` holds an in-range face lacking normals with vertex-index
word `k`. -/
def isLacking (faces : List CFace) (k i : Nat) : Bool :=
  !(faces.getD i dummyFace).hasNormals && ((faces.getD i dummyFace).ivert == k)
    && decide (i < faces.length)

/-- First donor position for key `k` in the window `[i, i + rem)`. -/
def firstDonorGo (faces : List CFace) (k : Nat) : Nat → Nat → Option Nat
  | _, 0 => none
  | i, rem + 1 => if isDonor faces k i then some i else firstDonorGo faces k (i + 1) rem

/-- First position whose face carries normals and has vertex-index word
`k`. -/
def firstDonorIdx (faces : List CFace) (k : Nat) : Option Nat :=
  firstDonorGo faces k 0 faces.length

/-- Last position lacking normals with vertex-index word `k` in the
window `[i, i + rem)`. -/
def lastLackingIn (faces : List CFace) (k : Nat) : Nat → Nat → Option Nat
  | _, 0 => none
  | i, rem + 1 =>
    match lastLackingIn faces k (i + 1) rem with
    | some j => some j
    | none => if isLacking faces k i then some i else none

/-- Last position whose face lacks normals and has vertex-index word
`k`. -/
def lastLackingIdx (faces : List CFace) (k : Nat) : Option Nat :=
  lastLackingIn faces k 0 faces.length

/-- The face the normal-transfer pass produces at position `j`: the last
face lacking normals for its vertex-index word receives the normal
indices of the first face carrying normals with the same word (if any);
every other face is unchanged. -/
def specAt (faces : List CFace) (j : Nat) : CFace :=
  if (faces.getD j dummyFace).hasNormals = false ∧
      lastLackingIdx faces (faces.getD j dummyFace).ivert = some j then
    match firstDonorIdx faces (faces.getD j dummyFace).ivert with
    | some fd => (faces.getD j dummyFace).copyNormalIndicesFrom (faces.getD fd dummyFace)
    | none => faces.getD j dummyFace
  else faces.getD j dummyFace

/-- The whole face sequence the normal-transfer pass produces, described
positionally by `specAt`. -/
def transferNormalsSpec (faces : List CFace) : List CFace :=
  (List.range faces.length).map (specAt faces)

/-- A face carrying normals (data_b bit 15 set, normal index 7 in data_a,
normal indices in data_c) with vertex-index word 5. -/
def donorFace : CFace := ⟨5, 224, 32768, 582, 0⟩

/-- A face lacking normals with the same vertex-index word 5. -/
def lackFace : CFace := ⟨5, 0, 0, 0, 0⟩

/-- C5 counterexample: in the sequence [donor, lack, lack] — one face with
normals followed by two later faces with the same 4-byte vertex-index
word lacking normals — the claim says the donor donates its normal
indices to BOTH later faces; the code donates only to the LAST one: the
face at position 1 is returned unchanged and still lacks normals. -/
theorem c5_transfer_counterexample :
    transferNormals [donorFace, lackFace, lackFace] =
      [donorFace, lackFace, lackFace.copyNormalIndicesFrom donorFace] ∧
    donorFace.hasNormals = true ∧ lackFace.hasNormals = false ∧
    lackFace.ivert = donorFace.ivert ∧
    lackFace.copyNormalIndicesFrom donorFace ≠ lackFace := by decide

theorem hasNormals_copy (t s : CFace) :
    (t.copyNormalIndicesFrom s).hasNormals = s.hasNormals := rfl

theorem ivert_copy (t s : CFace) : (t.copyNormalIndicesFrom s).ivert = t.ivert := rfl

theorem merase_cons (e : Nat × Nat) (rest : List (Nat × Nat)) (k : Nat) :
    merase (e :: rest) k = if e.1 = k then merase rest k else e :: merase rest k := rfl

theorem mfind_cons (e : Nat × Nat) (rest : List (Nat × Nat)) (k2 : Nat) :
    mfind (e :: rest) k2 = if e.1 = k2 then some e.2 else mfind rest k2 := rfl

theorem mfind_merase (m : List (Nat × Nat)) (k k2 : Nat) :
    mfind (merase m k) k2 = if k2 = k then none else mfind m k2 := by
  induction m with
  | nil =>
    show (none : Option Nat) = if k2 = k then none else none
    split <;> rfl
  | cons e rest ih =>
    rw [merase_cons]
    by_cases he : e.1 = k
    · rw [if_pos he, ih]
      by_cases hk : k2 = k
      · rw [if_pos hk, if_pos hk]
      · rw [if_neg hk, if_neg hk, mfind_cons, if_neg (fun hc => hk (hc.symm.trans he))]
    · rw [if_neg he, mfind_cons, mfind_cons]
      by_cases he2 : e.1 = k2
      · rw [if_pos he2, if_neg (fun hc => he (he2.trans hc)), if_pos he2]
      · rw [if_neg he2, ih]
        by_cases hk : k2 = k
        · rw [if_pos hk, if_pos hk]
        · rw [if_neg hk, if_neg hk, if_neg he2]

theorem mfind_minsert (m : List (Nat × Nat)) (k v k2 : Nat) :
    mfind (minsert m k v) k2 = if k2 = k then some v else mfind m k2 := by
  show mfind ((k, v) :: merase m k) k2 = _
  rw [mfind_cons]
  by_cases hk : k2 = k
  · rw [if_pos hk.symm, if_pos hk]
  · rw [if_neg (fun hc => hk hc.symm), mfind_merase, if_neg hk, if_neg hk]

theorem isLacking_true {faces : List CFace} {k j : Nat} (h : isLacking faces k j = true) :
    (faces.getD j dummyFace).hasNormals = false ∧ (faces.getD j dummyFace).ivert = k ∧
      j < faces.length := by
  unfold isLacking at h
  simp only [Bool.and_eq_true, Bool.not_eq_true', beq_iff_eq, decide_eq_true_eq] at h
  exact ⟨h.1.1, h.1.2, h.2⟩

theorem isLacking_of {faces : List CFace} {k j : Nat}
    (h1 : (faces.getD j dummyFace).hasNormals = false)
    (h2 : (faces.getD j dummyFace).ivert = k) (h3 : j < faces.length) :
    isLacking faces k j = true := by
  unfold isLacking
  simp only [Bool.and_eq_true, Bool.not_eq_true', beq_iff_eq, decide_eq_true_eq]
  exact ⟨⟨h1, h2⟩, h3⟩

theorem isDonor_true {faces : List CFace} {k i : Nat} (h : isDonor faces k i = true) :
    (faces.getD i dummyFace).hasNormals = true ∧ (faces.getD i dummyFace).ivert = k := by
  unfold isDonor at h
  simp only [Bool.and_eq_true, beq_iff_eq] at h
  exact h

theorem isDonor_of {faces : List CFace} {k i : Nat}
    (h1 : (faces.getD i dummyFace).hasNormals = true)
    (h2 : (faces.getD i dummyFace).ivert = k) : isDonor faces k i = true := by
  unfold isDonor
  simp only [Bool.and_eq_true, beq_iff_eq]
  exact ⟨h1, h2⟩

theorem lastLackingIn_succ (faces : List CFace) (k i rem : Nat) :
    lastLackingIn faces k i (rem + 1) =
      match lastLackingIn faces k (i + 1) rem with
      | some j => some j
      | none => if isLacking faces k i then some i else none := rfl

theorem firstDonorGo_succ (faces : List CFace) (k i rem : Nat) :
    firstDonorGo faces k i (rem + 1) =
      if isDonor faces k i then some i else firstDonorGo faces k (i + 1) rem := rfl

theorem buildNeedGo_succ (faces : List CFace) (i rem : Nat) (m : List (Nat × Nat)) :
    buildNeedGo faces i (rem + 1) m =
      buildNeedGo faces (i + 1) rem
        (if (faces.getD i dummyFace).hasNormals then m
         else minsert m (faces.getD i dummyFace).ivert i) := rfl

theorem lastLackingIn_some {faces : List CFace} {k : Nat} :
    ∀ {rem i j : Nat}, lastLackingIn faces k i rem = some j →
      i ≤ j ∧ j < i + rem ∧ isLacking faces k j = true := by
  intro rem
  induction rem with
  | zero => intro i j h; cases h
  | succ rem ih =>
    intro i j h
    rw [lastLackingIn_succ] at h
    cases hin : lastLackingIn faces k (i + 1) rem with
    | some j2 =>
      rw [hin] at h
      cases h
      obtain ⟨h1, h2, h3⟩ := ih hin
      exact ⟨by omega, by omega, h3⟩
    | none =>
      rw [hin] at h
      dsimp only at h
      by_cases hl : isLacking faces k i = true
      · rw [if_pos hl] at h
        cases h
        exact ⟨Nat.le_refl i, by omega, hl⟩
      · rw [if_neg hl] at h
        cases h

theorem firstDonorGo_some {faces : List CFace} {k : Nat} :
    ∀ {rem i fd : Nat}, firstDonorGo faces k i rem = some fd →
      i ≤ fd ∧ fd < i + rem ∧ isDonor faces k fd = true := by
  intro rem
  induction rem with
  | zero => intro i fd h; cases h
  | succ rem ih =>
    intro i fd h
    rw [firstDonorGo_succ] at h
    by_cases hd : isDonor faces k i = true
    · rw [if_pos hd] at h
      cases h
      exact ⟨Nat.le_refl i, by omega, hd⟩
    · rw [if_neg hd] at h
      obtain ⟨h1, h2, h3⟩ := ih h
      exact ⟨by omega, by omega, h3⟩

theorem firstDonorGo_exists {faces : List CFace} {k : Nat} :
    ∀ {rem i i0 : Nat}, i ≤ i0 → i0 < i + rem → isDonor faces k i0 = true →
      ∃ fd, firstDonorGo faces k i rem = some fd ∧ fd ≤ i0 := by
  intro rem
  induction rem with
  | zero => intro i i0 h1 h2 _; exact absurd h2 (by omega)
  | succ rem ih =>
    intro i i0 h1 h2 h3
    rw [firstDonorGo_succ]
    by_cases hd : isDonor faces k i = true
    · exact ⟨i, by rw [if_pos hd], h1⟩
    · rw [if_neg hd]
      have hne : i ≠ i0 := fun he => hd (he ▸ h3)
      exact ih (by omega) (by omega) h3

theorem mfind_buildNeedGo (faces : List CFace) :
    ∀ (rem i : Nat) (m : List (Nat × Nat)) (k : Nat), i + rem ≤ faces.length →
      mfind (buildNeedGo faces i rem m) k =
        match lastLackingIn faces k i rem with
        | some j => some j
        | none => mfind m k := by
  intro rem
  induction rem with
  | zero => intro i m k _; rfl
  | succ rem ih =>
    intro i m k hw
    rw [buildNeedGo_succ, ih (i + 1) _ k (by omega), lastLackingIn_succ]
    cases hin : lastLackingIn faces k (i + 1) rem with
    | some j => rfl
    | none =>
      dsimp only
      show mfind (if (faces.getD i dummyFace).hasNormals = true then m
        else minsert m (faces.getD i dummyFace).ivert i) k = _
      by_cases hn : (faces.getD i dummyFace).hasNormals = true
      · rw [if_pos hn]
        have hlf : isLacking faces k i = false := by
          cases hB : isLacking faces k i
          · rfl
          · have hc := (isLacking_true hB).1
            rw [hn] at hc
            cases hc
        rw [hlf]
        rfl
      · rw [if_neg hn]
        rw [mfind_minsert]
        have hnf : (faces.getD i dummyFace).hasNormals = false := by
          cases hB : (faces.getD i dummyFace).hasNormals
          · rfl
          · exact absurd hB hn
        by_cases hk : (faces.getD i dummyFace).ivert = k
        · have hl : isLacking faces k i = true := isLacking_of hnf hk (by omega)
          rw [hl, if_pos hk.symm]
          rfl
        · have hlf : isLacking faces k i = false := by
            cases hB : isLacking faces k i
            · rfl
            · exact absurd (isLacking_true hB).2.1 hk
          rw [hlf, if_neg (fun hc => hk hc.symm)]
          rfl

theorem mfind_buildNeed (faces : List CFace) (k : Nat) :
    mfind (buildNeed faces) k = lastLackingIdx faces k := by
  unfold buildNeed lastLackingIdx
  rw [mfind_buildNeedGo faces faces.length 0 [] k (by omega)]
  cases h : lastLackingIn faces k 0 faces.length with
  | some j => rfl
  | none => rfl

/-- Whether the first donor for key `k` lies strictly before position `i`
(the donors already processed by the second pass). -/
def donorBefore (faces : List CFace) (k i : Nat) : Bool :=
  match firstDonorIdx faces k with
  | some fd => decide (fd < i)
  | none => false

/-- The face held at position `j` once the second pass has processed the
first `i` positions: the last lacking face of a key whose first donor was
already processed holds the spec value; every other face still holds its
original record. -/
def resultAt (faces : List CFace) (i j : Nat) : CFace :=
  if (faces.getD j dummyFace).hasNormals = false ∧
      lastLackingIdx faces (faces.getD j dummyFace).ivert = some j ∧
      donorBefore faces (faces.getD j dummyFace).ivert i = true
  then specAt faces j
  else faces.getD j dummyFace

/-- The `need_normals` map contents once the second pass has processed the
first `i` positions: keys whose first donor was processed are erased; the
rest still map to the last lacking position. -/
def mapInv (faces : List CFace) (i k : Nat) : Option Nat :=
  if donorBefore faces k i = true then none else lastLackingIdx faces k

theorem lastLackingIdx_some {faces : List CFace} {k j : Nat}
    (h : lastLackingIdx faces k = some j) :
    j < faces.length ∧ (faces.getD j dummyFace).hasNormals = false ∧
      (faces.getD j dummyFace).ivert = k := by
  have h2 : lastLackingIn faces k 0 faces.length = some j := h
  obtain ⟨-, -, h3⟩ := lastLackingIn_some h2
  obtain ⟨a, b, c⟩ := isLacking_true h3
  exact ⟨c, a, b⟩

theorem firstDonor_some_key {faces : List CFace} {k i : Nat}
    (h : firstDonorIdx faces k = some i) :
    (faces.getD i dummyFace).hasNormals = true ∧ (faces.getD i dummyFace).ivert = k := by
  have h2 : firstDonorGo faces k 0 faces.length = some i := h
  exact isDonor_true (firstDonorGo_some h2).2.2

theorem firstDonorIdx_lt {faces : List CFace} {k fd : Nat}
    (h : firstDonorIdx faces k = some fd) : fd < faces.length := by
  have h2 : firstDonorGo faces k 0 faces.length = some fd := h
  have := (firstDonorGo_some h2).2.1
  omega

theorem firstDonorIdx_exists {faces : List CFace} {k i0 : Nat} (h2 : i0 < faces.length)
    (h3 : isDonor faces k i0 = true) :
    ∃ fd, firstDonorIdx faces k = some fd ∧ fd ≤ i0 :=
  firstDonorGo_exists (Nat.zero_le i0) (by omega) h3

theorem resultAt_zero (faces : List CFace) (j : Nat) :
    resultAt faces 0 j = faces.getD j dummyFace := by
  unfold resultAt
  have hdb : donorBefore faces (faces.getD j dummyFace).ivert 0 = false := by
    unfold donorBefore
    cases firstDonorIdx faces (faces.getD j dummyFace).ivert with
    | none => rfl
    | some fd => simp
  have hneg : ¬((faces.getD j dummyFace).hasNormals = false ∧
      lastLackingIdx faces (faces.getD j dummyFace).ivert = some j ∧
      donorBefore faces (faces.getD j dummyFace).ivert 0 = true) := by
    rintro ⟨-, -, h3⟩
    rw [hdb] at h3
    cases h3
  rw [if_neg hneg]

theorem mapInv_zero (faces : List CFace) (k : Nat) :
    mapInv faces 0 k = lastLackingIdx faces k := by
  unfold mapInv donorBefore
  cases firstDonorIdx faces k with
  | none => rfl
  | some fd => simp

theorem donorBefore_succ_of_ne {faces : List CFace} {k i : Nat}
    (h : firstDonorIdx faces k ≠ some i) :
    donorBefore faces k (i + 1) = donorBefore faces k i := by
  unfold donorBefore
  cases hf : firstDonorIdx faces k with
  | none => rfl
  | some fd =>
    have hne : fd ≠ i := fun he => h (by rw [hf, he])
    simp only [decide_eq_decide]
    omega

theorem donorBefore_succ_self {faces : List CFace} {k i : Nat}
    (h : firstDonorIdx faces k = some i) : donorBefore faces k (i + 1) = true := by
  unfold donorBefore
  rw [h]
  simp

theorem resultAt_succ_of_ne {faces : List CFace} {i : Nat}
    (h : ∀ k, firstDonorIdx faces k ≠ some i) (j : Nat) :
    resultAt faces (i + 1) j = resultAt faces i j := by
  unfold resultAt
  rw [donorBefore_succ_of_ne (h _)]

theorem mapInv_succ_of_ne {faces : List CFace} {i : Nat}
    (h : ∀ k, firstDonorIdx faces k ≠ some i) (k : Nat) :
    mapInv faces (i + 1) k = mapInv faces i k := by
  unfold mapInv
  rw [donorBefore_succ_of_ne (h k)]

theorem resultAt_succ_donor_other {faces : List CFace} {i k : Nat}
    (hfd : firstDonorIdx faces k = some i) {j : Nat}
    (hj : lastLackingIdx faces k ≠ some j) :
    resultAt faces (i + 1) j = resultAt faces i j := by
  unfold resultAt
  by_cases hk : (faces.getD j dummyFace).ivert = k
  · rw [hk]
    rw [if_neg (fun hc => hj hc.2.1), if_neg (fun hc => hj hc.2.1)]
  · have hne : firstDonorIdx faces (faces.getD j dummyFace).ivert ≠ some i :=
      fun hc => hk ((firstDonor_some_key hc).2.symm.trans (firstDonor_some_key hfd).2)
    rw [donorBefore_succ_of_ne hne]

theorem mapInv_succ_donor {faces : List CFace} {i k : Nat}
    (hfd : firstDonorIdx faces k = some i) (k2 : Nat) :
    mapInv faces (i + 1) k2 = if k2 = k then none else mapInv faces i k2 := by
  by_cases hk : k2 = k
  · subst hk
    unfold mapInv
    rw [donorBefore_succ_self hfd, if_pos rfl, if_pos rfl]
  · rw [if_neg hk]
    unfold mapInv
    have hne : firstDonorIdx faces k2 ≠ some i :=
      fun hc => hk ((firstDonor_some_key hc).2.symm.trans (firstDonor_some_key hfd).2)
    rw [donorBefore_succ_of_ne hne]

theorem resultAt_succ_target {faces : List CFace} {i k j0 : Nat}
    (hfd : firstDonorIdx faces k = some i) (hll : lastLackingIdx faces k = some j0) :
    resultAt faces (i + 1) j0 = specAt faces j0 := by
  obtain ⟨hlt, hn, hk⟩ := lastLackingIdx_some hll
  unfold resultAt
  rw [if_pos ⟨hn, by rw [hk]; exact hll, by rw [hk]; exact donorBefore_succ_self hfd⟩]

theorem specAt_eq_copy {faces : List CFace} {k i j0 : Nat}
    (hfd : firstDonorIdx faces k = some i) (hll : lastLackingIdx faces k = some j0) :
    specAt faces j0 =
      (faces.getD j0 dummyFace).copyNormalIndicesFrom (faces.getD i dummyFace) := by
  obtain ⟨hlt, hn, hk⟩ := lastLackingIdx_some hll
  unfold specAt
  rw [hk, if_pos ⟨hn, hll⟩, hfd]

theorem resultAt_final {faces : List CFace} {i : Nat} (h : faces.length ≤ i) (j : Nat) :
    resultAt faces i j = specAt faces j := by
  unfold resultAt
  by_cases hc : (faces.getD j dummyFace).hasNormals = false ∧
      lastLackingIdx faces (faces.getD j dummyFace).ivert = some j
  · cases hfd : firstDonorIdx faces (faces.getD j dummyFace).ivert with
    | some fd =>
      have hdb : donorBefore faces (faces.getD j dummyFace).ivert i = true := by
        unfold donorBefore
        rw [hfd]
        exact decide_eq_true (Nat.lt_of_lt_of_le (firstDonorIdx_lt hfd) h)
      rw [if_pos ⟨hc.1, hc.2, hdb⟩]
    | none =>
      have hdb : donorBefore faces (faces.getD j dummyFace).ivert i = false := by
        unfold donorBefore
        rw [hfd]
      rw [if_neg (fun hx => Bool.false_ne_true (hdb ▸ hx.2.2))]
      unfold specAt
      rw [if_pos hc, hfd]
  · have hneg : ¬((faces.getD j dummyFace).hasNormals = false ∧
        lastLackingIdx faces (faces.getD j dummyFace).ivert = some j ∧
        donorBefore faces (faces.getD j dummyFace).ivert i = true) :=
      fun hx => hc ⟨hx.1, hx.2.1⟩
    rw [if_neg hneg]
    unfold specAt
    rw [if_neg hc]

theorem eq_spec_of_getD {faces arr : List CFace} (hlen : arr.length = faces.length)
    (h : ∀ j, arr.getD j dummyFace = specAt faces j) :
    arr = transferNormalsSpec faces := by
  apply List.ext_getElem (by simp [transferNormalsSpec, hlen])
  intro n h1 h2
  have hn : n < faces.length := by rw [← hlen]; exact h1
  have hgd := h n
  rw [List.getD_eq_getElem _ _ h1] at hgd
  rw [hgd]
  unfold transferNormalsSpec
  rw [List.getElem_map]
  congr 1
  exact (List.getElem_range _ (by simpa using hn)).symm

theorem getD_set_self (l : List CFace) (j : Nat) (x : CFace) (h : j < l.length) :
    (l.set j x).getD j dummyFace = x := by
  rw [List.getD_eq_getElem?_getD, List.getElem?_set_eq_of_lt x h]
  rfl

theorem getD_set_other (l : List CFace) (j j2 : Nat) (x : CFace) (h : j ≠ j2) :
    (l.set j x).getD j2 dummyFace = l.getD j2 dummyFace := by
  rw [List.getD_eq_getElem?_getD, List.getElem?_set_ne h, ← List.getD_eq_getElem?_getD]

theorem transferGo_succ (rem : Nat) (arr : List CFace) (m : List (Nat × Nat)) (i : Nat) :
    transferGo (rem + 1) arr m i =
      if i < arr.length then
        if (arr.getD i dummyFace).hasNormals then
          match mfind m (arr.getD i dummyFace).ivert with
          | some j =>
            transferGo rem
              (arr.set j ((arr.getD j dummyFace).copyNormalIndicesFrom (arr.getD i dummyFace)))
              (merase m (arr.getD i dummyFace).ivert) (i + 1)
          | none => transferGo rem arr m (i + 1)
        else transferGo rem arr m (i + 1)
      else arr := rfl

theorem transferGo_spec (faces : List CFace) :
    ∀ (rem i : Nat) (arr : List CFace) (m : List (Nat × Nat)),
      faces.length ≤ i + rem →
      arr.length = faces.length →
      (∀ j, arr.getD j dummyFace = resultAt faces i j) →
      (∀ k, mfind m k = mapInv faces i k) →
      transferGo rem arr m i = transferNormalsSpec faces := by
  intro rem
  induction rem with
  | zero =>
    intro i arr m hw hlen harr hm
    show arr = _
    apply eq_spec_of_getD hlen
    intro j
    rw [harr j, resultAt_final (by omega) j]
  | succ rem ih =>
    intro i arr m hw hlen harr hm
    rw [transferGo_succ]
    by_cases hi : i < arr.length
    · rw [if_pos hi]
      have hilen : i < faces.length := by rw [← hlen]; exact hi
      have hfi := harr i
      by_cases hN : (faces.getD i dummyFace).hasNormals = true
      · have hre : resultAt faces i i = faces.getD i dummyFace := by
          unfold resultAt
          rw [if_neg (fun hx => Bool.false_ne_true ((hN ▸ hx.1 : (true : Bool) = false)).symm)]
        rw [hre] at hfi
        rw [hfi, if_pos hN]
        by_cases hdb : donorBefore faces (faces.getD i dummyFace).ivert i = true
        · have hnofd : ∀ k2, firstDonorIdx faces k2 ≠ some i := by
            intro k2 hk2
            have hkey := (firstDonor_some_key hk2).2
            rw [hkey] at hdb
            unfold donorBefore at hdb
            rw [hk2] at hdb
            dsimp only at hdb
            simp only [decide_eq_true_eq] at hdb
            omega
          have hnone : mfind m (faces.getD i dummyFace).ivert = none := by
            rw [hm _]
            unfold mapInv
            rw [if_pos hdb]
          rw [hnone]
          apply ih (i + 1) arr m (by omega) hlen
          · intro j
            rw [harr j]
            exact (resultAt_succ_of_ne hnofd j).symm
          · intro k2
            rw [hm k2]
            exact (mapInv_succ_of_ne hnofd k2).symm
        · have hdbf : donorBefore faces (faces.getD i dummyFace).ivert i = false := by
            cases hB : donorBefore faces (faces.getD i dummyFace).ivert i
            · rfl
            · exact absurd hB hdb
          obtain ⟨fd, hfd, hfdle⟩ :=
            firstDonorIdx_exists hilen (isDonor_of hN rfl)
          have hfdi : fd = i := by
            unfold donorBefore at hdbf
            rw [hfd] at hdbf
            dsimp only at hdbf
            simp only [decide_eq_false_iff_not] at hdbf
            omega
          rw [hfdi] at hfd
          have hm_i : mfind m (faces.getD i dummyFace).ivert =
              lastLackingIdx faces (faces.getD i dummyFace).ivert := by
            rw [hm _]
            unfold mapInv
            rw [if_neg (fun hc => Bool.false_ne_true (hdbf ▸ hc))]
          cases hll : lastLackingIdx faces (faces.getD i dummyFace).ivert with
          | none =>
            rw [hm_i, hll]
            apply ih (i + 1) arr m (by omega) hlen
            · intro j
              rw [harr j]
              refine (resultAt_succ_donor_other hfd ?_).symm
              rw [hll]
              exact fun hc => Option.noConfusion hc
            · intro k2
              rw [hm k2, mapInv_succ_donor hfd k2]
              by_cases hk2 : k2 = (faces.getD i dummyFace).ivert
              · rw [if_pos hk2, hk2]
                unfold mapInv
                rw [if_neg (fun hc => Bool.false_ne_true (hdbf ▸ hc)), hll]
              · rw [if_neg hk2]
          | some j0 =>
            rw [hm_i, hll]
            obtain ⟨hj0lt, hj0n, hj0k⟩ := lastLackingIdx_some hll
            have harrj0 : arr.getD j0 dummyFace = faces.getD j0 dummyFace := by
              rw [harr j0]
              unfold resultAt
              rw [if_neg (fun hx => Bool.false_ne_true
                ((hj0k ▸ hdbf : donorBefore faces (faces.getD j0 dummyFace).ivert i = false)
                  ▸ hx.2.2))]
            apply ih (i + 1) _ _ (by omega)
            · rw [List.length_set]
              exact hlen
            · intro j
              by_cases hj : j = j0
              · subst hj
                rw [getD_set_self _ _ _ (by rw [hlen]; exact hj0lt), harrj0,
                  resultAt_succ_target hfd hll, specAt_eq_copy hfd hll]
              · rw [getD_set_other _ _ _ _ (fun he => hj he.symm), harr j]
                refine (resultAt_succ_donor_other hfd ?_).symm
                rw [hll]
                exact fun hc => hj (Option.some.inj hc).symm
            · intro k2
              rw [mfind_merase, hm k2, mapInv_succ_donor hfd k2]
      · have hNf : (faces.getD i dummyFace).hasNormals = false := by
          cases hB : (faces.getD i dummyFace).hasNormals
          · rfl
          · exact absurd hB hN
        have hnofd : ∀ k2, firstDonorIdx faces k2 ≠ some i := by
          intro k2 hk2
          have := (firstDonor_some_key hk2).1
          rw [hNf] at this
          cases this
        have hrec : transferGo rem arr m (i + 1) = transferNormalsSpec faces := by
          apply ih (i + 1) arr m (by omega) hlen
          · intro j
            rw [harr j]
            exact (resultAt_succ_of_ne hnofd j).symm
          · intro k2
            rw [hm k2]
            exact (mapInv_succ_of_ne hnofd k2).symm
        by_cases hC : lastLackingIdx faces (faces.getD i dummyFace).ivert = some i ∧
            donorBefore faces (faces.getD i dummyFace).ivert i = true
        · obtain ⟨hCll, hCdb⟩ := hC
          have hfdEx : ∃ fd, firstDonorIdx faces (faces.getD i dummyFace).ivert = some fd := by
            unfold donorBefore at hCdb
            cases hf : firstDonorIdx faces (faces.getD i dummyFace).ivert with
            | none => rw [hf] at hCdb; cases hCdb
            | some fd => exact ⟨fd, rfl⟩
          obtain ⟨fd, hfd⟩ := hfdEx
          have hre : resultAt faces i i = specAt faces i := by
            unfold resultAt
            rw [if_pos ⟨hNf, hCll, hCdb⟩]
          have hspec : specAt faces i =
              (faces.getD i dummyFace).copyNormalIndicesFrom (faces.getD fd dummyFace) :=
            specAt_eq_copy hfd hCll
          have hfdN : (faces.getD fd dummyFace).hasNormals = true := (firstDonor_some_key hfd).1
          rw [hfi, hre, hspec]
          rw [if_pos (by rw [hasNormals_copy]; exact hfdN)]
          rw [ivert_copy]
          have hnone : mfind m (faces.getD i dummyFace).ivert = none := by
            rw [hm _]
            unfold mapInv
            rw [if_pos hCdb]
          rw [hnone]
          exact hrec
        · have hre : resultAt faces i i = faces.getD i dummyFace := by
            unfold resultAt
            rw [if_neg (fun hx => hC ⟨hx.2.1, hx.2.2⟩)]
          rw [hfi, hre]
          rw [if_neg (fun hc => Bool.false_ne_true (hNf ▸ hc))]
          exact hrec
    · rw [if_neg hi]
      apply eq_spec_of_getD hlen
      intro j
      rw [harr j, resultAt_final (by omega) j]

/-- C5 (amended): for every face sequence, the encode-side normal-transfer
pass `TransferNormals` donates, for each 4-byte raw vertex-index word, the
normal indices of the FIRST face in the sequence that carries normals to
exactly ONE face: the LAST face in the sequence with that word that lacks
normals (whether it comes before or after the donor); every other face,
in particular every face that already carries normals, is left
unchanged — as described positionally by `transferNormalsSpec`. -/
theorem c5_transfer_normals_amended (faces : List CFace) :
    transferNormals faces = transferNormalsSpec faces := by
  unfold transferNormals
  apply transferGo_spec faces faces.length 0 faces (buildNeed faces) (by omega) rfl
  · intro j
    exact (resultAt_zero faces j).symm
  · intro k
    rw [mfind_buildNeed]
    exact (mapInv_zero faces k).symm

end Gt2
